import Mathlib

/-!
Verification of the level-by-level hierarchy extraction core of the
AkomaNtoso repository, against its natural-language specification.

The Lean definitions below are a shallow embedding of the Python source:

* `src/src/models/line_info.py` / `src/src/models/segment.py` — data model,
* `src/src/extractor/line_numbered_extractor.py` — the Line Index
  (`format_numbered_text`, `get_lines_slice`, `get_content`,
  `get_page_for_line`),
* `src/src/parser/level_extractor.py` — the Hierarchy Builder
  (`extract_hierarchy_dynamic`, `extract_document_hierarchy`,
  `extract_level_by_level`, `_fill_leaf_content`) and the Tree Repair
  Pass (`find_missing_title`, `fill_missing_titles`).

The external text-understanding service (LLM) is modelled as an opaque
function parameter: for child discovery an `Oracle : Int → Int → List
Segment` standing for `discover_children` restricted to the queried line
range, and for title repair a `TitleOracle : TitleQuery → Option String`
standing for the structured-output LLM call inside `find_missing_title`.
Python integers are modelled as `Int`, Python `None`-able strings as
`Option String`.  Mutation of node objects is modelled by returning the
rebuilt tree.
-/

namespace AkomaNtoso

/-- `LineInfo` from `src/src/models/line_info.py`: one surviving line of
the extracted document, with its 1-indexed sequential number and PDF
page. -/
structure LineInfo where
  line_num : Int
  page : Int
  text : String
deriving DecidableEq, Repr

/-- `Segment` from `src/src/models/segment.py`: a candidate hierarchy
node proposed by the oracle for one queried range. -/
structure Segment where
  type : String
  number : String
  title : Option String := none
  start_line : Int
  end_line : Int
deriving DecidableEq, Repr

/-- Right-align a number to width `w` by left-padding with spaces, the
behaviour of Python's `f"{n:>{w}}"` (no truncation when wider). -/
def pad_num (w : Nat) (n : Int) : String :=
  let s := toString n
  String.mk (List.replicate (w - s.length) ' ') ++ s

/-- `format_numbered_text` from
`src/src/extractor/line_numbered_extractor.py`: each line rendered as
`"<num>| <text>"`, the number right-aligned to the width of the LAST
line number of the given list (`len(str(line_infos[-1].line_num))`). -/
def format_numbered_text (line_infos : List LineInfo) : String :=
  match line_infos.getLast? with
  | none => ""
  | some last =>
    let max_width := (toString last.line_num).length
    String.intercalate "\n"
      (line_infos.map (fun li => pad_num max_width li.line_num ++ "| " ++ li.text))

/-- The sub-list of lines whose `line_num` lies in `[start_line, end_line]`
(the comprehension `[li for li in line_infos if start <= li.line_num <= end]`). -/
def lines_in_range (line_infos : List LineInfo) (start_line end_line : Int) : List LineInfo :=
  line_infos.filter (fun li => start_line ≤ li.line_num ∧ li.line_num ≤ end_line)

/-- `get_lines_slice` from `src/src/extractor/line_numbered_extractor.py`:
numbered text for a line range, delegating to `format_numbered_text` on
the filtered subset. -/
def get_lines_slice (line_infos : List LineInfo) (start_line end_line : Int) : String :=
  format_numbered_text (lines_in_range line_infos start_line end_line)

/-- `get_content` from `src/src/extractor/line_numbered_extractor.py`:
raw text (no numbers) of a line range, newline-joined. -/
def get_content (line_infos : List LineInfo) (start_line end_line : Int) : String :=
  String.intercalate "\n" ((lines_in_range line_infos start_line end_line).map (·.text))

/-- `get_page_for_line` from
`src/src/extractor/line_numbered_extractor.py`: page of the first line
with the given number, or the default `1` when no line matches. -/
def get_page_for_line (line_infos : List LineInfo) (line_num : Int) : Int :=
  match line_infos with
  | [] => 1
  | li :: rest => if li.line_num = line_num then li.page else get_page_for_line rest line_num

/-- `HierarchyNode` from `src/src/parser/level_extractor.py`: the
persisted tree node.  `children` default `[]`, `title`/`content`
default `None`. -/
inductive HierarchyNode where
  | mk (level : Int) (type : String) (number : String) (title : Option String)
       (content : Option String) (start_line : Int) (end_line : Int) (page : Int)
       (children : List HierarchyNode)
deriving Repr

namespace HierarchyNode

def level : HierarchyNode → Int | mk l _ _ _ _ _ _ _ _ => l
def type : HierarchyNode → String | mk _ t _ _ _ _ _ _ _ => t
def number : HierarchyNode → String | mk _ _ n _ _ _ _ _ _ => n
def title : HierarchyNode → Option String | mk _ _ _ t _ _ _ _ _ => t
def content : HierarchyNode → Option String | mk _ _ _ _ c _ _ _ _ => c
def start_line : HierarchyNode → Int | mk _ _ _ _ _ s _ _ _ => s
def end_line : HierarchyNode → Int | mk _ _ _ _ _ _ e _ _ => e
def page : HierarchyNode → Int | mk _ _ _ _ _ _ _ p _ => p
def children : HierarchyNode → List HierarchyNode | mk _ _ _ _ _ _ _ _ c => c

end HierarchyNode

/-- The child-discovery oracle boundary: `discover_children(line_infos,
start, end)` seen from the Builder — an unconstrained function from the
queried line range to a list of candidate segments. -/
abbrev Oracle := Int → Int → List Segment

/-- The node constructed in the loop body of `extract_hierarchy_dynamic`
(and of `extract_hierarchy_fixed`): level is the parent's `level + 1`,
`content` is filled from `get_content` exactly when the recursion
produced no children, `page` comes from `get_page_for_line` at the
segment's first line. -/
def dyn_mk (line_infos : List LineInfo) (level : Int) (seg : Segment)
    (children : List HierarchyNode) : HierarchyNode :=
  .mk (level + 1) seg.type seg.number seg.title
    (if children.isEmpty then some (get_content line_infos seg.start_line seg.end_line) else none)
    seg.start_line seg.end_line
    (get_page_for_line line_infos seg.start_line)
    children

/-- The `for seg in segments` loop of `extract_hierarchy_dynamic`:
recurse (via `recurse`, the extraction one level deeper) into each
segment's range at `level + 1` and build its node. -/
def build_nodes_dyn (recurse : Int → Int → Int → List HierarchyNode)
    (line_infos : List LineInfo) : List Segment → Int → List HierarchyNode
  | [], _ => []
  | seg :: rest, level =>
    dyn_mk line_infos level seg (recurse seg.start_line seg.end_line (level + 1))
      :: build_nodes_dyn recurse line_infos rest level

/-- `extract_hierarchy_dynamic` from `src/src/parser/level_extractor.py`,
with the recursion depth counted by an explicit `fuel` argument.  In the
source the function takes `level` and `max_depth` and returns `[]` as
soon as `level >= max_depth`; here `fuel` stands for
`(max_depth - level).toNat`, so `fuel = 0` holds exactly when
`level ≥ max_depth`, and each recursive call (at `level + 1`) gets
`fuel - 1`.  The wrapper `extract_hierarchy_dynamic` below restores the
source signature. -/
def extract_hierarchy_dynamic_aux (oracle : Oracle) (line_infos : List LineInfo) :
    Nat → Int → Int → Int → List HierarchyNode
  | 0, _, _, _ => []
  | fuel + 1, start_line, end_line, level =>
    -- Small ranges are likely leaf content
    if end_line - start_line < 2 then []
    else
      -- Let LLM discover what children exist
      let segments := oracle start_line end_line
      if segments.isEmpty then []  -- Leaf node - no children
      else
        build_nodes_dyn
          (fun s e l => extract_hierarchy_dynamic_aux oracle line_infos fuel s e l)
          line_infos segments level

/-- `extract_hierarchy_dynamic(line_infos, start_line, end_line, level,
max_depth)` with the source signature; see
`extract_hierarchy_dynamic_aux` for the fuel correspondence. -/
def extract_hierarchy_dynamic (oracle : Oracle) (line_infos : List LineInfo)
    (start_line end_line level max_depth : Int) : List HierarchyNode :=
  extract_hierarchy_dynamic_aux oracle line_infos (max_depth - level).toNat start_line end_line level

/-- `extract_document_hierarchy` from `src/src/parser/level_extractor.py`:
empty input yields an empty tree, otherwise the dynamic extraction runs
over the full document range starting at `level = 0`. -/
def extract_document_hierarchy (oracle : Oracle) (line_infos : List LineInfo)
    (max_depth : Int) : List HierarchyNode :=
  match line_infos with
  | [] => []
  | l0 :: rest =>
    let start_line := l0.line_num
    let end_line := ((l0 :: rest).getLast (List.cons_ne_nil l0 rest)).line_num
    extract_hierarchy_dynamic oracle line_infos start_line end_line 0 max_depth

def HierarchyNode.withChildren : HierarchyNode → List HierarchyNode → HierarchyNode
  | .mk l t n ti c s e p _, cs => .mk l t n ti c s e p cs

def HierarchyNode.withContent : HierarchyNode → Option String → HierarchyNode
  | .mk l t n ti _ s e p cs, c => .mk l t n ti c s e p cs

def HierarchyNode.withTitle : HierarchyNode → Option String → HierarchyNode
  | .mk l t n _ c s e p cs, ti => .mk l t n ti c s e p cs

/-- Node construction shared by the level-1 discovery and the level loop
of `extract_level_by_level`: a fresh node with `content = None` and
`children = []`. -/
def mkChildNode (line_infos : List LineInfo) (level : Int) (seg : Segment) : HierarchyNode :=
  .mk level seg.type seg.number seg.title none seg.start_line seg.end_line
    (get_page_for_line line_infos seg.start_line) []

/-- The per-parent child segments in the level loop of
`extract_level_by_level`: the oracle response for the parent's range
with the self-reference guard applied (`continue` when the segment's
range equals the parent's own range). -/
def child_segs (oracle : Oracle) (parent_start parent_end : Int) : List Segment :=
  (oracle parent_start parent_end).filter
    (fun seg => ¬(seg.start_line = parent_start ∧ seg.end_line = parent_end))

/-- The filter `p.end_line - p.start_line >= 2` selecting
`parents_to_process` in `extract_level_by_level`. -/
def needs_processing (p : HierarchyNode) : Bool := 2 ≤ p.end_line - p.start_line

/-- A completion order for the workers of one level: the order in which
`as_completed(futures)` yields the parents of `parents_to_process`
(sequential mode is `id`).  Theorems quantify over any such reordering. -/
abbrev Sched := List HierarchyNode → List HierarchyNode

/-- One level step of `extract_level_by_level` as seen by a single node:
at relative depth `0` (the current frontier), a parent passing the
`needs_processing` filter has its `children` list set to the guarded
oracle response for its own range (each worker appends, in oracle order,
one node per non-self segment to exactly its own parent); any other node
just recurses into its children.  In the source the same assignment
happens by mutating the parent objects held inside `root_nodes`. -/
def attach_node (oracle : Oracle) (line_infos : List LineInfo) (next_level : Int) :
    Nat → HierarchyNode → HierarchyNode
  | 0, p =>
    if needs_processing p then
      p.withChildren
        ((child_segs oracle p.start_line p.end_line).map (mkChildNode line_infos next_level))
    else p
  | d + 1, p => p.withChildren (p.children.map (attach_node oracle line_infos next_level d))

/-- The level step applied to every tree of the forest. -/
def attach_forest (oracle : Oracle) (line_infos : List LineInfo) (next_level : Int)
    (d : Nat) (l : List HierarchyNode) : List HierarchyNode :=
  l.map (attach_node oracle line_infos next_level d)

/-- `nodes_at_next_level` of one iteration of the level loop: the
parents of `parents_to_process`, enumerated in worker-completion order
`sched`, each contributing its guarded child nodes in oracle order. -/
def next_frontier (oracle : Oracle) (line_infos : List LineInfo) (next_level : Int)
    (sched : Sched) (frontier : List HierarchyNode) : List HierarchyNode :=
  ((sched (frontier.filter needs_processing)).map
    (fun p => (child_segs oracle p.start_line p.end_line).map (mkChildNode line_infos next_level))).flatten

/-- The `while current_level < max_depth and nodes_at_current_level`
loop of `extract_level_by_level`.  `fuel` stands for
`(max_depth - current_level).toNat`, so `fuel = 0` holds exactly when
`current_level ≥ max_depth`; `depth` is the (0-based) depth of the
current frontier inside `forest`, i.e. `current_level - 1`. -/
def level_loop (oracle : Oracle) (line_infos : List LineInfo) (sched : Sched) :
    Nat → Nat → Int → List HierarchyNode → List HierarchyNode → List HierarchyNode
  | 0, _, _, _, forest => forest
  | fuel + 1, depth, current_level, frontier, forest =>
    if frontier.isEmpty then forest
    else
      let next_level := current_level + 1
      level_loop oracle line_infos sched fuel (depth + 1) next_level
        (next_frontier oracle line_infos next_level sched frontier)
        (attach_forest oracle line_infos next_level depth forest)

mutual

/-- `_fill_leaf_content` from `src/src/parser/level_extractor.py` on one
node: recurse into non-empty children, otherwise set `content` from
`get_content` over the node's own range. -/
def fill_leaf_node (line_infos : List LineInfo) : HierarchyNode → HierarchyNode
  | .mk l t nb ti c s e p cs =>
    if cs.isEmpty then
      .mk l t nb ti (some (get_content line_infos s e)) s e p cs
    else .mk l t nb ti c s e p (fill_leaf_forest line_infos cs)

def fill_leaf_forest (line_infos : List LineInfo) : List HierarchyNode → List HierarchyNode
  | [] => []
  | n :: rest => fill_leaf_node line_infos n :: fill_leaf_forest line_infos rest

end

/-- `extract_level_by_level` from `src/src/parser/level_extractor.py`
(breadth-first builder).  The `parallel`/`max_workers` configuration is
absorbed into `sched`, the completion order of one level's workers;
`sched = id` is the sequential branch.  Progress callbacks are
side-effecting only and are not modelled. -/
def extract_level_by_level (oracle : Oracle) (line_infos : List LineInfo)
    (max_depth : Int) (sched : Sched) : List HierarchyNode :=
  match line_infos with
  | [] => []
  | l0 :: rest =>
    let start_line := l0.line_num
    let end_line := ((l0 :: rest).getLast (List.cons_ne_nil l0 rest)).line_num
    -- Level 1: discover top-level children (no self-reference guard here)
    let segments := oracle start_line end_line
    if segments.isEmpty then []
    else
      let root_nodes := segments.map (mkChildNode line_infos 1)
      fill_leaf_forest line_infos
        (level_loop oracle line_infos sched (max_depth - 1).toNat 0 1 root_nodes root_nodes)

/-- ASCII whitespace as recognised by Python's `str.strip()`
(space, tab, newline, carriage return, vertical tab, form feed). -/
def py_is_space (c : Char) : Bool :=
  c == ' ' || c == '\t' || c == '\n' || c == '\r' || c == Char.ofNat 11 || c == Char.ofNat 12

/-- Python's `not text.strip()`: true exactly when every character is
whitespace (in particular for the empty string). -/
def py_is_blank (s : String) : Bool := s.data.all py_is_space

/-- The data interpolated into `FIND_TITLE_PROMPT` by
`find_missing_title`: the node's type and number, its line range, and
the 2000-character prefix of its raw content (`text[:2000]`). -/
structure TitleQuery where
  element_type : String
  number : String
  start_line : Int
  end_line : Int
  text : String
deriving DecidableEq, Repr

/-- The title-repair oracle boundary: the structured-output LLM call
inside `find_missing_title`, returning a title or `None`. -/
abbrev TitleOracle := TitleQuery → Option String

/-- `find_missing_title` from `src/src/parser/level_extractor.py`,
instrumented with the list of oracle queries it issues (the source
performs the query as an effect; the second component records it).
Blank or empty content returns `None` before any query; otherwise the
single query carries `text[:2000]`. -/
def find_missing_title (oracle : TitleOracle) (line_infos : List LineInfo)
    (node_type node_number : String) (start_line end_line : Int) :
    Option String × List TitleQuery :=
  let text := get_content line_infos start_line end_line
  if py_is_blank text then (none, [])
  else
    let q : TitleQuery := ⟨node_type, node_number, start_line, end_line, text.take 2000⟩
    (oracle q, [q])

mutual

/-- `fill_missing_titles` from `src/src/parser/level_extractor.py` on
one node: a node whose `title` is `None` gets the `find_missing_title`
answer when that answer is truthy (`if title:` — non-`None` and
non-empty), and keeps `None` otherwise; all other fields and all nodes
with a title are untouched; children are processed recursively.  The
source first collects all title-less nodes and then queries each; as
the queries are independent the collect-then-query order is immaterial
to the resulting tree. -/
def fill_titles_node (oracle : TitleOracle) (line_infos : List LineInfo) :
    HierarchyNode → HierarchyNode
  | .mk l t nb ti c s e p cs =>
    let new_title :=
      if ti = none then
        match (find_missing_title oracle line_infos t nb s e).1 with
        | some found => if found ≠ "" then some found else ti
        | none => ti
      else ti
    .mk l t nb new_title c s e p (fill_titles_forest oracle line_infos cs)

def fill_titles_forest (oracle : TitleOracle) (line_infos : List LineInfo) :
    List HierarchyNode → List HierarchyNode
  | [] => []
  | n :: rest => fill_titles_node oracle line_infos n :: fill_titles_forest oracle line_infos rest

end

/-! ### Tree predicates used by the statements -/

mutual

/-- `P` holds of a node and, recursively, of every node below it. -/
def NodeAll (P : HierarchyNode → Prop) : HierarchyNode → Prop
  | .mk l t nb ti c s e p cs => P (.mk l t nb ti c s e p cs) ∧ ForestAll P cs

/-- `P` holds of every node of every tree in the forest. -/
def ForestAll (P : HierarchyNode → Prop) : List HierarchyNode → Prop
  | [] => True
  | n :: rest => NodeAll P n ∧ ForestAll P rest

end

mutual

/-- Height of a tree: number of levels of nodes it contains. -/
def node_depth : HierarchyNode → Nat
  | .mk _ _ _ _ _ _ _ _ cs => 1 + forest_depth cs

/-- Number of levels of nodes in a forest (`0` for the empty forest). -/
def forest_depth : List HierarchyNode → Nat
  | [] => 0
  | n :: rest => max (node_depth n) (forest_depth rest)

end

theorem NodeAll_mk (P : HierarchyNode → Prop) (l : Int) (t nb : String)
    (ti c : Option String) (s e p : Int) (cs : List HierarchyNode) :
    NodeAll P (.mk l t nb ti c s e p cs) ↔ P (.mk l t nb ti c s e p cs) ∧ ForestAll P cs := by
  rw [NodeAll]

theorem ForestAll_nil (P : HierarchyNode → Prop) : ForestAll P [] := by
  rw [ForestAll]; trivial

theorem ForestAll_cons (P : HierarchyNode → Prop) (n : HierarchyNode)
    (rest : List HierarchyNode) :
    ForestAll P (n :: rest) ↔ NodeAll P n ∧ ForestAll P rest := by
  rw [ForestAll]

theorem ForestAll_iff_mem (P : HierarchyNode → Prop) (l : List HierarchyNode) :
    ForestAll P l ↔ ∀ n ∈ l, NodeAll P n := by
  induction l with
  | nil => simp [ForestAll_nil]
  | cons n rest ih =>
    rw [ForestAll_cons, ih]
    simp

mutual

/-- Decidable (Bool-valued) version of `NodeAll`, for evaluating
concrete trees. -/
def node_all_b (p : HierarchyNode → Bool) : HierarchyNode → Bool
  | .mk l t nb ti c s e pg cs => p (.mk l t nb ti c s e pg cs) && forest_all_b p cs

/-- Decidable version of `ForestAll`. -/
def forest_all_b (p : HierarchyNode → Bool) : List HierarchyNode → Bool
  | [] => true
  | n :: rest => node_all_b p n && forest_all_b p rest

end

/-- Children are in document order: `start_line` ascending. -/
def sorted_by_start_b : List HierarchyNode → Bool
  | [] => true
  | [_] => true
  | a :: b :: rest => decide (a.start_line ≤ b.start_line) && sorted_by_start_b (b :: rest)

/-- The completion order of sequential processing: parents in list
order. -/
def sched_id : Sched := fun l => l

/-- `build_nodes_dyn` is a `map` over the segment list. -/
theorem build_nodes_dyn_eq_map (recurse : Int → Int → Int → List HierarchyNode)
    (line_infos : List LineInfo) (segs : List Segment) (level : Int) :
    build_nodes_dyn recurse line_infos segs level =
      segs.map (fun seg =>
        dyn_mk line_infos level seg (recurse seg.start_line seg.end_line (level + 1))) := by
  induction segs with
  | nil => rfl
  | cons seg rest ih => simp [build_nodes_dyn, ih]

/-- `attach_forest` is a `map` of `attach_node` over the forest. -/
theorem attach_forest_eq_map (oracle : Oracle) (line_infos : List LineInfo)
    (next_level : Int) (d : Nat) (l : List HierarchyNode) :
    attach_forest oracle line_infos next_level d l =
      l.map (attach_node oracle line_infos next_level d) := rfl

/-- `_fill_leaf_content` is a `map` of its per-node action. -/
theorem fill_leaf_forest_eq_map (line_infos : List LineInfo) (l : List HierarchyNode) :
    fill_leaf_forest line_infos l = l.map (fill_leaf_node line_infos) := by
  induction l with
  | nil => rfl
  | cons n rest ih => simp [fill_leaf_forest, ih]

/-- `fill_missing_titles` is a `map` of its per-node action. -/
theorem fill_titles_forest_eq_map (oracle : TitleOracle) (line_infos : List LineInfo)
    (l : List HierarchyNode) :
    fill_titles_forest oracle line_infos l = l.map (fill_titles_node oracle line_infos) := by
  induction l with
  | nil => rfl
  | cons n rest ih => simp [fill_titles_forest, ih]

theorem NodeAll_iff (P : HierarchyNode → Prop) (n : HierarchyNode) :
    NodeAll P n ↔ P n ∧ ForestAll P n.children := by
  cases n with
  | mk l t nb ti c s e p cs => exact NodeAll_mk P l t nb ti c s e p cs

/-! ### Concrete inputs used by witnesses and counterexamples -/

/-- A ten-line document; its largest line number is two digits wide. -/
def doc10 : List LineInfo :=
  [⟨1, 1, "a"⟩, ⟨2, 1, "b"⟩, ⟨3, 1, "c"⟩, ⟨4, 1, "d"⟩, ⟨5, 1, "e"⟩,
   ⟨6, 1, "f"⟩, ⟨7, 1, "g"⟩, ⟨8, 1, "h"⟩, ⟨9, 1, "i"⟩, ⟨10, 1, "j"⟩]

/-- A three-line document (the smallest range the Builder will try to
subdivide). -/
def doc3 : List LineInfo := [⟨1, 1, "a"⟩, ⟨2, 1, "b"⟩, ⟨3, 1, "c"⟩]

/-- An oracle that always echoes the queried range back as a single
segment — the self-reference failure mode of §4.2 of the spec. -/
def echo_oracle : Oracle := fun s e => [⟨"section", "1", none, s, e⟩]

/-! ### C8 — empty document -/

/-- **C8**: on an empty document (no `LineInfo`s) both
`extract_document_hierarchy` and `extract_level_by_level` return the
empty forest.  Both functions are total, so no error is possible. -/
theorem c8_theorem (oracle : Oracle) (max_depth : Int) (sched : Sched) :
    extract_document_hierarchy oracle [] max_depth = [] ∧
    extract_level_by_level oracle [] max_depth sched = [] :=
  ⟨rfl, rfl⟩

/-! ### C5 — slice formatting width -/

/-- Modelled from the spec: `slice_numbered` as §4.1 describes it, with
the line number right-aligned to the width of the largest line number
in the WHOLE document (`line_infos`'s own last line), not the slice.
Compared against the source's `get_lines_slice`. -/
def get_lines_slice_doc_width (line_infos : List LineInfo) (start_line end_line : Int) : String :=
  match line_infos.getLast? with
  | none => ""
  | some last =>
    let w := (toString last.line_num).length
    String.intercalate "\n"
      ((lines_in_range line_infos start_line end_line).map
        (fun li => pad_num w li.line_num ++ "| " ++ li.text))

/-- The slice formatter with the padding width taken from the largest
line number inside the SLICE (the filtered subset's last line) — what
the source actually computes via `format_numbered_text(subset)`. -/
def get_lines_slice_slice_width (line_infos : List LineInfo) (start_line end_line : Int) : String :=
  match (lines_in_range line_infos start_line end_line).getLast? with
  | none => ""
  | some last =>
    let w := (toString last.line_num).length
    String.intercalate "\n"
      ((lines_in_range line_infos start_line end_line).map
        (fun li => pad_num w li.line_num ++ "| " ++ li.text))

theorem filter_idem {α : Type} (p : α → Bool) (l : List α) :
    (l.filter p).filter p = l.filter p := by
  induction l with
  | nil => rfl
  | cons a t ih => cases h : p a <;> simp [List.filter_cons, h, ih]

theorem lines_in_range_idem (line_infos : List LineInfo) (s e : Int) :
    lines_in_range (lines_in_range line_infos s e) s e = lines_in_range line_infos s e :=
  filter_idem _ _

/-- **C5 (amended)**: `get_lines_slice` formats each line of the range
as `"<num>| <text>"` with the number right-aligned to the width of the
largest line number in the SLICE (the subset's own last line) — not the
whole document; consequently the slice output is entirely determined by
the lines inside the range (second conjunct), so a document-wide width
is not what is computed and padding can differ between slices of one
document (see `c5_counterexample`). -/
theorem c5_theorem (line_infos : List LineInfo) (start_line end_line : Int) :
    get_lines_slice line_infos start_line end_line =
      get_lines_slice_slice_width line_infos start_line end_line ∧
    get_lines_slice line_infos start_line end_line =
      get_lines_slice (lines_in_range line_infos start_line end_line) start_line end_line := by
  refine ⟨rfl, ?_⟩
  unfold get_lines_slice
  rw [lines_in_range_idem]

/-- **C5 counterexample**: in a ten-line document the slice `[1,3]` is
padded to width 1 (its own largest number `3`), not to width 2 (the
document's largest number `10`) as the claim states; the slice `[9,10]`
of the same document is padded to width 2, so the width is not stable
across slices of one document. -/
theorem c5_counterexample :
    get_lines_slice doc10 1 3 = "1| a\n2| b\n3| c" ∧
    get_lines_slice_doc_width doc10 1 3 = " 1| a\n 2| b\n 3| c" ∧
    ¬ get_lines_slice doc10 1 3 = get_lines_slice_doc_width doc10 1 3 ∧
    get_lines_slice doc10 9 10 = " 9| i\n10| j" := by
  refine ⟨rfl, rfl, ?_, rfl⟩
  decide

/-! ### C10 — `find_missing_title` query discipline -/

/-- **C10**: `find_missing_title` returns `None` and issues no oracle
query when the node's range yields empty or whitespace-only content;
otherwise it issues exactly one query whose text is the first 2000
characters of the node's raw content, and its answer is the oracle's
answer to that query — so a title lying beyond the first 2000
characters can never reach the oracle. -/
theorem c10_theorem (oracle : TitleOracle) (line_infos : List LineInfo)
    (node_type node_number : String) (start_line end_line : Int) :
    (py_is_blank (get_content line_infos start_line end_line) = true →
      find_missing_title oracle line_infos node_type node_number start_line end_line
        = (none, [])) ∧
    (py_is_blank (get_content line_infos start_line end_line) = false →
      find_missing_title oracle line_infos node_type node_number start_line end_line
        = (oracle ⟨node_type, node_number, start_line, end_line,
              (get_content line_infos start_line end_line).take 2000⟩,
           [⟨node_type, node_number, start_line, end_line,
              (get_content line_infos start_line end_line).take 2000⟩])) := by
  constructor <;> intro h <;> simp [find_missing_title, h]

/-- A title oracle that always answers. -/
def c10_oracle : TitleOracle := fun _ => some "T"

/-- A document whose single line is whitespace-only. -/
def c10_blank_doc : List LineInfo := [⟨1, 1, "   "⟩]

theorem c10_witness :
    (py_is_blank (get_content c10_blank_doc 1 1) = true ∧
      find_missing_title c10_oracle c10_blank_doc "section" "1" 1 1 = (none, [])) ∧
    (py_is_blank (get_content doc3 1 3) = false ∧
      find_missing_title c10_oracle doc3 "section" "1" 1 3 =
        (c10_oracle ⟨"section", "1", 1, 3, (get_content doc3 1 3).take 2000⟩,
         [⟨"section", "1", 1, 3, (get_content doc3 1 3).take 2000⟩])) :=
  ⟨⟨by decide, (c10_theorem c10_oracle c10_blank_doc "section" "1" 1 1).1 (by decide)⟩,
   ⟨by decide, (c10_theorem c10_oracle doc3 "section" "1" 1 3).2 (by decide)⟩⟩

/-! ### Master lemma for the recursive (dynamic) builder -/

theorem dyn_mk_children (line_infos : List LineInfo) (level : Int) (seg : Segment)
    (cs : List HierarchyNode) : (dyn_mk line_infos level seg cs).children = cs := rfl

theorem dyn_mk_page (line_infos : List LineInfo) (level : Int) (seg : Segment)
    (cs : List HierarchyNode) :
    (dyn_mk line_infos level seg cs).page = get_page_for_line line_infos seg.start_line := rfl

/-- Every node produced by the segment loop satisfies `P`, provided `P`
holds of each constructed node whenever it holds below it. -/
theorem build_nodes_dyn_all (P : HierarchyNode → Prop)
    (recurse : Int → Int → Int → List HierarchyNode) (line_infos : List LineInfo)
    (hrec : ∀ s e l, ForestAll P (recurse s e l))
    (hmk : ∀ level seg children, ForestAll P children →
      P (dyn_mk line_infos level seg children)) :
    ∀ segs level, ForestAll P (build_nodes_dyn recurse line_infos segs level) := by
  intro segs level
  induction segs with
  | nil => simp [build_nodes_dyn, ForestAll_nil]
  | cons seg rest ihs =>
    rw [build_nodes_dyn, ForestAll_cons]
    refine ⟨?_, ihs⟩
    rw [NodeAll_iff, dyn_mk_children]
    exact ⟨hmk _ _ _ (hrec _ _ _), hrec _ _ _⟩

/-- Every node produced by `extract_hierarchy_dynamic` satisfies `P`,
provided `P` holds of each node the loop body constructs whenever it
holds of the node's (recursively extracted) children. -/
theorem dyn_all (oracle : Oracle) (line_infos : List LineInfo) (P : HierarchyNode → Prop)
    (hmk : ∀ level seg children, ForestAll P children →
      P (dyn_mk line_infos level seg children)) :
    ∀ fuel start_line end_line level,
      ForestAll P (extract_hierarchy_dynamic_aux oracle line_infos fuel start_line end_line level) := by
  intro fuel
  induction fuel with
  | zero => intro s e level; rw [extract_hierarchy_dynamic_aux]; exact ForestAll_nil P
  | succ fuel ih =>
    intro s e level
    rw [extract_hierarchy_dynamic_aux]
    split
    · exact ForestAll_nil P
    · dsimp only
      split
      · exact ForestAll_nil P
      · exact build_nodes_dyn_all P _ line_infos (fun a b c => ih a b c) hmk _ _

/-! ### C9 — default page -/

theorem get_page_for_line_not_found (line_infos : List LineInfo) (n : Int)
    (h : ∀ l ∈ line_infos, l.line_num ≠ n) : get_page_for_line line_infos n = 1 := by
  induction line_infos with
  | nil => rfl
  | cons li rest ih =>
    rw [get_page_for_line]
    rw [if_neg (h li (by simp))]
    exact ih (fun l hl => h l (by simp [hl]))

theorem one_le_get_page (line_infos : List LineInfo) (n : Int)
    (h : ∀ l ∈ line_infos, 1 ≤ l.page) : 1 ≤ get_page_for_line line_infos n := by
  induction line_infos with
  | nil => simp [get_page_for_line]
  | cons li rest ih =>
    rw [get_page_for_line]
    split
    · exact h li (by simp)
    · exact ih (fun l hl => h l (by simp [hl]))

/-- **C9**: `get_page_for_line` falls back to the default page `1` when
no line carries the requested number; consequently, whenever every line
of the document has a positive page (as the Line Index guarantees),
every node built by the dynamic Builder has `page ≥ 1`, even for a
`start_line` that addresses no existing line. -/
theorem c9_theorem :
    (∀ (line_infos : List LineInfo) (n : Int),
      (∀ l ∈ line_infos, l.line_num ≠ n) → get_page_for_line line_infos n = 1) ∧
    (∀ (oracle : Oracle) (line_infos : List LineInfo) (s e level max_depth : Int),
      (∀ l ∈ line_infos, 1 ≤ l.page) →
      ForestAll (fun nd => 1 ≤ nd.page)
        (extract_hierarchy_dynamic oracle line_infos s e level max_depth)) := by
  constructor
  · exact get_page_for_line_not_found
  · intro oracle line_infos s e level max_depth hpages
    exact dyn_all oracle line_infos _
      (fun lvl seg children _ => by rw [dyn_mk_page]; exact one_le_get_page _ _ hpages)
      _ s e level

theorem c9_witness :
    ((∀ l ∈ doc3, l.line_num ≠ 99) ∧ get_page_for_line doc3 99 = 1) ∧
    ((∀ l ∈ doc3, 1 ≤ l.page) ∧
      ForestAll (fun nd => 1 ≤ nd.page)
        (extract_hierarchy_dynamic echo_oracle doc3 1 3 0 2)) := by
  have h1 : ∀ l ∈ doc3, l.line_num ≠ 99 := by intro l hl; fin_cases hl <;> decide
  have h2 : ∀ l ∈ doc3, 1 ≤ l.page := by intro l hl; fin_cases hl <;> decide
  exact ⟨⟨h1, c9_theorem.1 doc3 99 h1⟩, ⟨h2, c9_theorem.2 echo_oracle doc3 1 3 0 2 h2⟩⟩

/-! ### Structural helpers for the breadth-first builder -/

theorem withChildren_children (n : HierarchyNode) (cs : List HierarchyNode) :
    (n.withChildren cs).children = cs := by cases n; rfl

theorem withChildren_content (n : HierarchyNode) (cs : List HierarchyNode) :
    (n.withChildren cs).content = n.content := by cases n; rfl

theorem withChildren_start (n : HierarchyNode) (cs : List HierarchyNode) :
    (n.withChildren cs).start_line = n.start_line := by cases n; rfl

theorem withChildren_end (n : HierarchyNode) (cs : List HierarchyNode) :
    (n.withChildren cs).end_line = n.end_line := by cases n; rfl

theorem mkChildNode_children (line_infos : List LineInfo) (level : Int) (seg : Segment) :
    (mkChildNode line_infos level seg).children = [] := rfl

theorem mkChildNode_content (line_infos : List LineInfo) (level : Int) (seg : Segment) :
    (mkChildNode line_infos level seg).content = none := rfl

theorem mkChildNode_start (line_infos : List LineInfo) (level : Int) (seg : Segment) :
    (mkChildNode line_infos level seg).start_line = seg.start_line := rfl

theorem sizeOf_children_lt (n : HierarchyNode) : sizeOf n.children < sizeOf n := by
  cases n with
  | mk l t nb ti ct s e p cs =>
    simp only [HierarchyNode.children, HierarchyNode.mk.sizeOf_spec]
    omega

/-- Structural induction over a hierarchy tree: to prove `P`
everywhere, prove it at each node assuming it for all children. -/
def hnode_ind {P : HierarchyNode → Prop}
    (step : ∀ n, (∀ c ∈ n.children, P c) → P n) : ∀ n, P n
  | n => step n (fun c _hc => hnode_ind step c)
termination_by n => sizeOf n
decreasing_by
  calc sizeOf c < sizeOf n.children := List.sizeOf_lt_of_mem _hc
    _ < sizeOf n := sizeOf_children_lt n

theorem ForestAll_map {P Q : HierarchyNode → Prop} {f : HierarchyNode → HierarchyNode}
    (l : List HierarchyNode) (h : ∀ n ∈ l, NodeAll P n → NodeAll Q (f n)) :
    ForestAll P l → ForestAll Q (l.map f) := by
  induction l with
  | nil => intro _; exact ForestAll_nil Q
  | cons n rest ih =>
    rw [List.map_cons, ForestAll_cons, ForestAll_cons]
    exact fun hp => ⟨h n (by simp) hp.1, ih (fun m hm => h m (by simp [hm])) hp.2⟩

theorem NodeAll_mkChild {P : HierarchyNode → Prop} (line_infos : List LineInfo)
    (level : Int) (seg : Segment) (h : P (mkChildNode line_infos level seg)) :
    NodeAll P (mkChildNode line_infos level seg) :=
  (NodeAll_iff P _).2 ⟨h, ForestAll_nil P⟩

theorem forestAll_mkChild {P : HierarchyNode → Prop} (line_infos : List LineInfo)
    (level : Int) (segs : List Segment)
    (h : ∀ seg, P (mkChildNode line_infos level seg)) :
    ForestAll P (segs.map (mkChildNode line_infos level)) := by
  rw [ForestAll_iff_mem]
  intro n hn
  obtain ⟨seg, _, rfl⟩ := List.mem_map.1 hn
  exact NodeAll_mkChild line_infos level seg (h seg)

/-- The level loop preserves any forest-wide property that each level's
attachment step preserves. -/
theorem level_loop_all (oracle : Oracle) (line_infos : List LineInfo) (sched : Sched)
    (P : HierarchyNode → Prop)
    (hattach : ∀ L d l, ForestAll P l → ForestAll P (attach_forest oracle line_infos L d l)) :
    ∀ fuel depth cl frontier forest, ForestAll P forest →
      ForestAll P (level_loop oracle line_infos sched fuel depth cl frontier forest) := by
  intro fuel
  induction fuel with
  | zero => intro _ _ _ forest h; rw [level_loop]; exact h
  | succ fuel ih =>
    intro depth cl frontier forest h
    rw [level_loop]
    split
    · exact h
    · exact ih _ _ _ _ (hattach _ _ _ h)

/-! ### C3 — leaf/content duality -/

/-- The leaf/content duality invariant of §3 of the spec:
`node.content is not None ⇔ len(node.children) == 0`. -/
def leaf_content_dual (n : HierarchyNode) : Prop := n.content ≠ none ↔ n.children = []

/-- The per-level attachment step keeps every `content` field `None`
(children are attached with `content=None`; existing contents are not
touched). -/
theorem attach_content_none (oracle : Oracle) (line_infos : List LineInfo) (L : Int) :
    ∀ d, (∀ n, NodeAll (fun m => m.content = none) n →
            NodeAll (fun m => m.content = none) (attach_node oracle line_infos L d n)) ∧
         (∀ l, ForestAll (fun m => m.content = none) l →
            ForestAll (fun m => m.content = none) (attach_forest oracle line_infos L d l)) := by
  intro d
  induction d with
  | zero =>
    have hnode : ∀ n, NodeAll (fun m => m.content = none) n →
        NodeAll (fun m => m.content = none) (attach_node oracle line_infos L 0 n) := by
      intro n hn
      rw [attach_node]
      split
      · rw [NodeAll_iff, withChildren_children]
        refine ⟨?_, ?_⟩
        · show (n.withChildren _).content = none
          rw [withChildren_content]
          exact ((NodeAll_iff _ n).1 hn).1
        · exact forestAll_mkChild _ _ _ (fun seg => mkChildNode_content _ _ _)
      · exact hn
    refine ⟨hnode, ?_⟩
    intro l hl
    rw [attach_forest_eq_map]
    exact ForestAll_map l (fun n _ => hnode n) hl
  | succ d ihd =>
    have hnode : ∀ n, NodeAll (fun m => m.content = none) n →
        NodeAll (fun m => m.content = none) (attach_node oracle line_infos L (d + 1) n) := by
      intro n hn
      rw [NodeAll_iff] at hn
      rw [attach_node, NodeAll_iff, withChildren_children]
      refine ⟨?_, ?_⟩
      · show (n.withChildren _).content = none
        rw [withChildren_content]
        exact hn.1
      · exact ForestAll_map n.children (fun m _ => ihd.1 m) hn.2
    refine ⟨hnode, ?_⟩
    intro l hl
    rw [attach_forest_eq_map]
    exact ForestAll_map l (fun n _ => hnode n) hl

/-- `_fill_leaf_content` turns an all-`content=None` tree into one
satisfying leaf/content duality. -/
theorem fill_leaf_dual (line_infos : List LineInfo) :
    ∀ n, NodeAll (fun m => m.content = none) n →
      NodeAll leaf_content_dual (fill_leaf_node line_infos n) := by
  refine hnode_ind ?_
  intro m ihc hm
  cases m with
  | mk l t nb ti ct s e p cs =>
    rw [NodeAll_iff] at hm
    have hct : ct = none := hm.1
    rw [fill_leaf_node]
    split
    · rename_i hemp
      have hcs : cs = [] := by simpa using hemp
      subst hcs
      rw [NodeAll_iff]
      refine ⟨?_, ForestAll_nil _⟩
      simp [leaf_content_dual, HierarchyNode.content, HierarchyNode.children]
    · rename_i hemp
      subst hct
      rw [NodeAll_iff]
      constructor
      · show leaf_content_dual (.mk l t nb ti none s e p (fill_leaf_forest line_infos cs))
        unfold leaf_content_dual
        simp only [HierarchyNode.content, HierarchyNode.children]
        cases cs with
        | nil => exact absurd rfl hemp
        | cons c0 rest =>
          rw [fill_leaf_forest]
          simp
      · show ForestAll leaf_content_dual (fill_leaf_forest line_infos cs)
        rw [fill_leaf_forest_eq_map]
        exact ForestAll_map cs (fun c hc => ihc c hc) hm.2

/-- **C3**: every tree returned by the Builder satisfies leaf/content
duality (`content ≠ None ↔ children = []`): for the recursive builder,
including its `extract_document_hierarchy` entry point, and for
`extract_level_by_level` (whose `_fill_leaf_content` post-pass
materialises leaf content). -/
theorem c3_theorem :
    (∀ (oracle : Oracle) (line_infos : List LineInfo) (s e level max_depth : Int),
      ForestAll leaf_content_dual
        (extract_hierarchy_dynamic oracle line_infos s e level max_depth)) ∧
    (∀ (oracle : Oracle) (line_infos : List LineInfo) (max_depth : Int),
      ForestAll leaf_content_dual (extract_document_hierarchy oracle line_infos max_depth)) ∧
    (∀ (oracle : Oracle) (line_infos : List LineInfo) (max_depth : Int) (sched : Sched),
      ForestAll leaf_content_dual (extract_level_by_level oracle line_infos max_depth sched)) := by
  have hdyn : ∀ (oracle : Oracle) (line_infos : List LineInfo) (s e level max_depth : Int),
      ForestAll leaf_content_dual
        (extract_hierarchy_dynamic oracle line_infos s e level max_depth) := by
    intro oracle line_infos s e level max_depth
    apply dyn_all
    intro lvl seg children _
    show leaf_content_dual (dyn_mk line_infos lvl seg children)
    unfold leaf_content_dual dyn_mk
    simp only [HierarchyNode.content, HierarchyNode.children]
    cases h : children.isEmpty
    · simp [List.isEmpty_iff] at h
      simp [h]
    · simp [List.isEmpty_iff.1 h]
  refine ⟨hdyn, ?_, ?_⟩
  · intro oracle line_infos max_depth
    cases line_infos with
    | nil => exact ForestAll_nil _
    | cons l0 rest => exact hdyn oracle (l0 :: rest) _ _ 0 max_depth
  · intro oracle line_infos max_depth sched
    cases line_infos with
    | nil => exact ForestAll_nil _
    | cons l0 rest =>
      rw [extract_level_by_level]
      dsimp only
      split
      · exact ForestAll_nil _
      · have hroots : ForestAll (fun m => m.content = none)
            ((oracle l0.line_num ((l0 :: rest).getLast (List.cons_ne_nil l0 rest)).line_num).map
              (mkChildNode (l0 :: rest) 1)) :=
          forestAll_mkChild _ _ _ (fun seg => mkChildNode_content _ _ _)
        have hloop := level_loop_all oracle (l0 :: rest) sched _
          (fun L d l hl => (attach_content_none oracle (l0 :: rest) L d).2 l hl)
          (max_depth - 1).toNat 0 1
          ((oracle l0.line_num ((l0 :: rest).getLast (List.cons_ne_nil l0 rest)).line_num).map
            (mkChildNode (l0 :: rest) 1))
          _ hroots
        rw [fill_leaf_forest_eq_map]
        exact ForestAll_map _ (fun n _ => fill_leaf_dual (l0 :: rest) n) hloop

/-! ### C1 — self-reference guard -/

/-- Against an oracle all of whose answers echo the queried range, the
guarded child list of the level loop is empty. -/
theorem child_segs_echo (oracle : Oracle)
    (hecho : ∀ s e, ∀ seg ∈ oracle s e, seg.start_line = s ∧ seg.end_line = e)
    (s e : Int) : child_segs oracle s e = [] := by
  unfold child_segs
  rw [List.filter_eq_nil_iff]
  intro seg hseg
  have h := hecho s e seg hseg
  simp [h.1, h.2]

/-- Under an always-echoing oracle the attachment step never creates a
child: every node stays a leaf. -/
theorem attach_leaf (oracle : Oracle) (line_infos : List LineInfo) (L : Int)
    (hecho : ∀ s e, ∀ seg ∈ oracle s e, seg.start_line = s ∧ seg.end_line = e) :
    ∀ d, (∀ n, NodeAll (fun m => m.children = []) n →
            NodeAll (fun m => m.children = []) (attach_node oracle line_infos L d n)) ∧
         (∀ l, ForestAll (fun m => m.children = []) l →
            ForestAll (fun m => m.children = []) (attach_forest oracle line_infos L d l)) := by
  intro d
  induction d with
  | zero =>
    have hnode : ∀ n, NodeAll (fun m => m.children = []) n →
        NodeAll (fun m => m.children = []) (attach_node oracle line_infos L 0 n) := by
      intro n hn
      rw [attach_node]
      split
      · rw [child_segs_echo oracle hecho]
        rw [NodeAll_iff, withChildren_children]
        exact ⟨rfl, ForestAll_nil _⟩
      · exact hn
    refine ⟨hnode, ?_⟩
    intro l hl
    rw [attach_forest_eq_map]
    exact ForestAll_map l (fun n _ => hnode n) hl
  | succ d ihd =>
    have hnode : ∀ n, NodeAll (fun m => m.children = []) n →
        NodeAll (fun m => m.children = []) (attach_node oracle line_infos L (d + 1) n) := by
      intro n hn
      rw [NodeAll_iff] at hn
      rw [attach_node]
      rw [hn.1, List.map_nil]
      rw [NodeAll_iff, withChildren_children]
      exact ⟨rfl, ForestAll_nil _⟩
    refine ⟨hnode, ?_⟩
    intro l hl
    rw [attach_forest_eq_map]
    exact ForestAll_map l (fun n _ => hnode n) hl

/-- `_fill_leaf_content` keeps a leaf a leaf. -/
theorem fill_preserves_leaf (line_infos : List LineInfo) :
    ∀ n, NodeAll (fun m => m.children = []) n →
      NodeAll (fun m => m.children = []) (fill_leaf_node line_infos n) := by
  intro n hn
  cases n with
  | mk l t nb ti ct s e p cs =>
    rw [NodeAll_iff] at hn
    have hcs : cs = [] := hn.1
    subst hcs
    rw [fill_leaf_node]
    have hemp : ([] : List HierarchyNode).isEmpty = true := rfl
    rw [if_pos hemp, NodeAll_iff]
    exact ⟨rfl, ForestAll_nil _⟩

/-- **C1 (amended)**: in `extract_level_by_level`, every segment whose
range equals its parent's queried range is discarded by the level
loop's guard, so against an oracle all of whose answers echo the
queried range every node of the output (including the level-1 node made
from the echoed whole-document segment) has zero children — the run
degrades to leaves instead of recursing.  (`extract_hierarchy_dynamic`
has no such guard; see `c1_counterexample`.) -/
theorem c1_theorem (oracle : Oracle) (line_infos : List LineInfo) (max_depth : Int)
    (sched : Sched)
    (hecho : ∀ s e, ∀ seg ∈ oracle s e, seg.start_line = s ∧ seg.end_line = e) :
    ForestAll (fun n => n.children = [])
      (extract_level_by_level oracle line_infos max_depth sched) := by
  cases line_infos with
  | nil => exact ForestAll_nil _
  | cons l0 rest =>
    rw [extract_level_by_level]
    dsimp only
    split
    · exact ForestAll_nil _
    · have hroots : ForestAll (fun m => m.children = [])
          ((oracle l0.line_num ((l0 :: rest).getLast (List.cons_ne_nil l0 rest)).line_num).map
            (mkChildNode (l0 :: rest) 1)) :=
        forestAll_mkChild _ _ _ (fun seg => mkChildNode_children _ _ _)
      have hloop := level_loop_all oracle (l0 :: rest) sched _
        (fun L d l hl => (attach_leaf oracle (l0 :: rest) L hecho d).2 l hl)
        (max_depth - 1).toNat 0 1
        ((oracle l0.line_num ((l0 :: rest).getLast (List.cons_ne_nil l0 rest)).line_num).map
          (mkChildNode (l0 :: rest) 1))
        _ hroots
      rw [fill_leaf_forest_eq_map]
      exact ForestAll_map _ (fun n _ => fill_preserves_leaf (l0 :: rest) n) hloop

theorem c1_witness :
    (∀ s e, ∀ seg ∈ echo_oracle s e, seg.start_line = s ∧ seg.end_line = e) ∧
    ForestAll (fun n => n.children = [])
      (extract_level_by_level echo_oracle doc3 10 sched_id) := by
  have hecho : ∀ s e, ∀ seg ∈ echo_oracle s e, seg.start_line = s ∧ seg.end_line = e := by
    intro s e seg h
    simp only [echo_oracle, List.mem_singleton] at h
    subst h
    exact ⟨rfl, rfl⟩
  exact ⟨hecho, c1_theorem echo_oracle doc3 10 sched_id hecho⟩

/-- **C1 counterexample**: `extract_hierarchy_dynamic` does NOT discard
an echoed segment.  Querying lines 1–3 of a three-line document against
the always-echoing oracle, the claim demands a LEAF (an empty result
list for the queried range); instead the echoed segment becomes a node
and, one level down, it receives the echo as its own child again — the
recursion only stops at `max_depth`. -/
theorem c1_counterexample :
    (extract_hierarchy_dynamic echo_oracle doc3 1 3 0 10).length = 1 ∧
    ((extract_hierarchy_dynamic echo_oracle doc3 1 3 0 10).head?.map
      (fun n => n.children.length)) = some 1 ∧
    forest_all_b (fun n => n.children.isEmpty)
      (extract_hierarchy_dynamic echo_oracle doc3 1 3 0 10) = false := by
  exact ⟨rfl, rfl, rfl⟩

/-! ### C4 — children order -/

/-- Document order on nodes: `start_line` ascending. -/
def node_le (a b : HierarchyNode) : Prop := a.start_line ≤ b.start_line

/-- Document order on segments. -/
def seg_le (a b : Segment) : Prop := a.start_line ≤ b.start_line

theorem attach_node_start (oracle : Oracle) (line_infos : List LineInfo) (L : Int) :
    ∀ d n, (attach_node oracle line_infos L d n).start_line = n.start_line := by
  intro d n
  cases d with
  | zero =>
    rw [attach_node]
    split
    · exact withChildren_start n _
    · rfl
  | succ d => rw [attach_node]; exact withChildren_start n _

theorem fill_leaf_node_start (line_infos : List LineInfo) (n : HierarchyNode) :
    (fill_leaf_node line_infos n).start_line = n.start_line := by
  cases n with
  | mk l t nb ti ct s e p cs =>
    rw [fill_leaf_node]
    split <;> rfl

/-- The children a worker attaches to one parent are the oracle's
segments (echoes removed) in oracle order; if the oracle's response is
sorted by `start_line`, so are they. -/
theorem kids_sorted (oracle : Oracle) (line_infos : List LineInfo) (L s e : Int)
    (horacle : ∀ s e, List.Pairwise seg_le (oracle s e)) :
    List.Pairwise node_le ((child_segs oracle s e).map (mkChildNode line_infos L)) := by
  apply List.Pairwise.map (R := seg_le)
  · intro a b hab
    unfold node_le
    rw [mkChildNode_start, mkChildNode_start]
    exact hab
  · exact (horacle s e).filter _

/-- The attachment step preserves "children sorted by `start_line`"
everywhere in the forest, for a sorted-response oracle. -/
theorem attach_sorted (oracle : Oracle) (line_infos : List LineInfo) (L : Int)
    (horacle : ∀ s e, List.Pairwise seg_le (oracle s e)) :
    ∀ d, (∀ n, NodeAll (fun m => List.Pairwise node_le m.children) n →
            NodeAll (fun m => List.Pairwise node_le m.children)
              (attach_node oracle line_infos L d n)) ∧
         (∀ l, ForestAll (fun m => List.Pairwise node_le m.children) l →
            ForestAll (fun m => List.Pairwise node_le m.children)
              (attach_forest oracle line_infos L d l)) := by
  intro d
  induction d with
  | zero =>
    have hnode : ∀ n, NodeAll (fun m => List.Pairwise node_le m.children) n →
        NodeAll (fun m => List.Pairwise node_le m.children)
          (attach_node oracle line_infos L 0 n) := by
      intro n hn
      rw [attach_node]
      split
      · rw [NodeAll_iff, withChildren_children]
        refine ⟨?_, ?_⟩
        · exact kids_sorted oracle line_infos L _ _ horacle
        · exact forestAll_mkChild _ _ _
            (fun seg => by rw [mkChildNode_children]; exact List.Pairwise.nil)
      · exact hn
    refine ⟨hnode, ?_⟩
    intro l hl
    rw [attach_forest_eq_map]
    exact ForestAll_map l (fun n _ => hnode n) hl
  | succ d ihd =>
    have hnode : ∀ n, NodeAll (fun m => List.Pairwise node_le m.children) n →
        NodeAll (fun m => List.Pairwise node_le m.children)
          (attach_node oracle line_infos L (d + 1) n) := by
      intro n hn
      rw [NodeAll_iff] at hn
      rw [attach_node, NodeAll_iff, withChildren_children]
      refine ⟨?_, ?_⟩
      · apply List.Pairwise.map (R := node_le)
        · intro a b hab
          unfold node_le
          rw [attach_node_start, attach_node_start]
          exact hab
        · exact hn.1
      · exact ForestAll_map n.children (fun m _ => ihd.1 m) hn.2
    refine ⟨hnode, ?_⟩
    intro l hl
    rw [attach_forest_eq_map]
    exact ForestAll_map l (fun n _ => hnode n) hl

/-- `_fill_leaf_content` preserves "children sorted by `start_line`". -/
theorem fill_sorted (line_infos : List LineInfo) :
    ∀ n, NodeAll (fun m => List.Pairwise node_le m.children) n →
      NodeAll (fun m => List.Pairwise node_le m.children) (fill_leaf_node line_infos n) := by
  refine hnode_ind ?_
  intro m ihc hm
  cases m with
  | mk l t nb ti ct s e p cs =>
    rw [NodeAll_iff] at hm
    rw [fill_leaf_node]
    split
    · rw [NodeAll_iff]
      exact ⟨hm.1, hm.2⟩
    · rw [NodeAll_iff]
      constructor
      · show List.Pairwise node_le (fill_leaf_forest line_infos cs)
        rw [fill_leaf_forest_eq_map]
        apply List.Pairwise.map (R := node_le)
        · intro a b hab
          unfold node_le
          rw [fill_leaf_node_start, fill_leaf_node_start]
          exact hab
        · exact hm.1
      · show ForestAll _ (fill_leaf_forest line_infos cs)
        rw [fill_leaf_forest_eq_map]
        exact ForestAll_map cs (fun c hc => ihc c hc) hm.2

/-- **C4 (amended)**: for every completion order of the concurrent
workers (`sched` is arbitrary), the children of every node produced by
`extract_level_by_level` are the oracle's segments for that node's own
range, echoes removed, in the oracle's order — each worker appends only
to its own parent.  Hence whenever the oracle returns segments sorted
by `start_line` (the Segment ordering invariant of §3), the children of
every node are sorted by `start_line`.  The code contains no sorting
step, so for an oracle response violating the invariant the children
are NOT re-sorted (see `c4_counterexample`). -/
theorem c4_theorem (oracle : Oracle) (line_infos : List LineInfo) (max_depth : Int)
    (sched : Sched)
    (horacle : ∀ s e, List.Pairwise seg_le (oracle s e)) :
    ForestAll (fun n => List.Pairwise node_le n.children)
      (extract_level_by_level oracle line_infos max_depth sched) := by
  cases line_infos with
  | nil => exact ForestAll_nil _
  | cons l0 rest =>
    rw [extract_level_by_level]
    dsimp only
    split
    · exact ForestAll_nil _
    · have hroots : ForestAll (fun m => List.Pairwise node_le m.children)
          ((oracle l0.line_num ((l0 :: rest).getLast (List.cons_ne_nil l0 rest)).line_num).map
            (mkChildNode (l0 :: rest) 1)) :=
        forestAll_mkChild _ _ _
          (fun seg => by rw [mkChildNode_children]; exact List.Pairwise.nil)
      have hloop := level_loop_all oracle (l0 :: rest) sched _
        (fun L d l hl => (attach_sorted oracle (l0 :: rest) L horacle d).2 l hl)
        (max_depth - 1).toNat 0 1
        ((oracle l0.line_num ((l0 :: rest).getLast (List.cons_ne_nil l0 rest)).line_num).map
          (mkChildNode (l0 :: rest) 1))
        _ hroots
      rw [fill_leaf_forest_eq_map]
      exact ForestAll_map _ (fun n _ => fill_sorted (l0 :: rest) n) hloop

/-- A sorted-response oracle used to instantiate `c4_theorem`. -/
def c4w_oracle : Oracle := fun s e =>
  if s = 1 ∧ e = 3 then [⟨"chapter", "I", none, 1, 2⟩, ⟨"chapter", "II", none, 3, 3⟩]
  else []

theorem c4_witness :
    (∀ s e, List.Pairwise seg_le (c4w_oracle s e)) ∧
    ForestAll (fun n => List.Pairwise node_le n.children)
      (extract_level_by_level c4w_oracle doc3 10 sched_id) := by
  have h : ∀ s e, List.Pairwise seg_le (c4w_oracle s e) := by
    intro s e
    unfold c4w_oracle
    split
    · refine List.Pairwise.cons ?_ (List.Pairwise.cons ?_ List.Pairwise.nil)
      · intro b hb
        simp only [List.mem_singleton] at hb
        subst hb
        exact Int.le_of_lt (by decide)
      · intro b hb
        exact absurd hb (List.not_mem_nil b)
    · exact List.Pairwise.nil
  exact ⟨h, c4_theorem c4w_oracle doc3 10 sched_id h⟩

/-- A five-line document. -/
def doc5 : List LineInfo :=
  [⟨1, 1, "a"⟩, ⟨2, 1, "b"⟩, ⟨3, 1, "c"⟩, ⟨4, 1, "d"⟩, ⟨5, 1, "e"⟩]

/-- An oracle whose response for lines 1–4 is NOT sorted by
`start_line` (the adapter performs no validation, so such a response
reaches the Builder unchanged). -/
def c4c_oracle : Oracle := fun s e =>
  if s = 1 ∧ e = 5 then [⟨"part", "I", none, 1, 4⟩]
  else if s = 1 ∧ e = 4 then [⟨"section", "2", none, 3, 4⟩, ⟨"section", "1", none, 1, 2⟩]
  else []

/-- **C4 counterexample**: the claim quantifies over every oracle
response, but `extract_level_by_level` keeps children exactly in oracle
order: for an out-of-order response the unique root's children have
`start_line`s `[3, 1]`, which is not ascending. -/
theorem c4_counterexample :
    ((extract_level_by_level c4c_oracle doc5 10 sched_id).head?.map
      (fun n => n.children.map (fun c => c.start_line))) = some [3, 1] ∧
    forest_all_b (fun n => sorted_by_start_b n.children)
      (extract_level_by_level c4c_oracle doc5 10 sched_id) = false :=
  ⟨rfl, rfl⟩

/-! ### C2 — depth bound and termination -/

theorem node_depth_eq (n : HierarchyNode) : node_depth n = 1 + forest_depth n.children := by
  cases n with
  | mk l t nb ti ct s e p cs => rw [node_depth]; rfl

theorem forest_depth_nil : forest_depth [] = 0 := by rw [forest_depth]

theorem forest_depth_cons (n : HierarchyNode) (rest : List HierarchyNode) :
    forest_depth (n :: rest) = max (node_depth n) (forest_depth rest) := by
  rw [forest_depth]

/-- Fresh child nodes form a forest of height 1. -/
theorem forest_depth_map_mkChild (line_infos : List LineInfo) (L : Int) (segs : List Segment) :
    forest_depth (segs.map (mkChildNode line_infos L)) ≤ 1 := by
  induction segs with
  | nil => rw [List.map_nil, forest_depth_nil]; omega
  | cons seg rest ih =>
    rw [List.map_cons, forest_depth_cons]
    have h1 : node_depth (mkChildNode line_infos L seg) = 1 := by
      rw [node_depth_eq, mkChildNode_children, forest_depth_nil]
    omega

/-- The segment loop of the dynamic builder adds one level on top of
whatever the recursion produces. -/
theorem build_depth (recurse : Int → Int → Int → List HierarchyNode)
    (line_infos : List LineInfo) (fuel : Nat)
    (hrec : ∀ s e l, forest_depth (recurse s e l) ≤ fuel) :
    ∀ segs level, forest_depth (build_nodes_dyn recurse line_infos segs level) ≤ fuel + 1 := by
  intro segs level
  induction segs with
  | nil => rw [build_nodes_dyn, forest_depth_nil]; omega
  | cons seg rest ih =>
    rw [build_nodes_dyn, forest_depth_cons]
    have h1 : node_depth (dyn_mk line_infos level seg
        (recurse seg.start_line seg.end_line (level + 1))) ≤ fuel + 1 := by
      rw [node_depth_eq, dyn_mk_children]
      have := hrec seg.start_line seg.end_line (level + 1)
      omega
    omega

/-- The dynamic builder's output height is bounded by its fuel, i.e. by
`max_depth - level`. -/
theorem dyn_depth (oracle : Oracle) (line_infos : List LineInfo) :
    ∀ fuel s e level,
      forest_depth (extract_hierarchy_dynamic_aux oracle line_infos fuel s e level) ≤ fuel := by
  intro fuel
  induction fuel with
  | zero =>
    intro s e level
    rw [extract_hierarchy_dynamic_aux, forest_depth_nil]
  | succ fuel ih =>
    intro s e level
    rw [extract_hierarchy_dynamic_aux]
    split
    · rw [forest_depth_nil]; omega
    · dsimp only
      split
      · rw [forest_depth_nil]; omega
      · exact build_depth _ line_infos fuel (fun a b c => ih a b c) _ _

/-- One attachment pass can only deepen the forest to `d + 2` (children
of the depth-`d` frontier). -/
theorem attach_depth (oracle : Oracle) (line_infos : List LineInfo) (L : Int) :
    ∀ d, (∀ n, node_depth (attach_node oracle line_infos L d n) ≤ max (node_depth n) (d + 2)) ∧
         (∀ l, forest_depth (l.map (attach_node oracle line_infos L d)) ≤
            max (forest_depth l) (d + 2)) := by
  intro d
  induction d with
  | zero =>
    have hnode : ∀ n, node_depth (attach_node oracle line_infos L 0 n) ≤
        max (node_depth n) 2 := by
      intro n
      rw [attach_node]
      split
      · rw [node_depth_eq, withChildren_children]
        have := forest_depth_map_mkChild line_infos L
          (child_segs oracle n.start_line n.end_line)
        omega
      · omega
    refine ⟨hnode, ?_⟩
    intro l
    induction l with
    | nil => rw [List.map_nil, forest_depth_nil]; omega
    | cons n rest ih =>
      rw [List.map_cons, forest_depth_cons, forest_depth_cons]
      have := hnode n
      omega
  | succ d ihd =>
    have hnode : ∀ n, node_depth (attach_node oracle line_infos L (d + 1) n) ≤
        max (node_depth n) (d + 3) := by
      intro n
      rw [attach_node, node_depth_eq, withChildren_children]
      have := ihd.2 n.children
      rw [node_depth_eq n]
      omega
    refine ⟨hnode, ?_⟩
    intro l
    induction l with
    | nil => rw [List.map_nil, forest_depth_nil]; omega
    | cons n rest ih =>
      rw [List.map_cons, forest_depth_cons, forest_depth_cons]
      have := hnode n
      omega

/-- The level loop grows the forest by at most one level per remaining
fuel unit. -/
theorem level_loop_depth (oracle : Oracle) (line_infos : List LineInfo) (sched : Sched) :
    ∀ fuel depth cl frontier forest, forest_depth forest ≤ depth + 1 →
      forest_depth (level_loop oracle line_infos sched fuel depth cl frontier forest) ≤
        depth + 1 + fuel := by
  intro fuel
  induction fuel with
  | zero =>
    intro depth cl frontier forest h
    rw [level_loop]
    omega
  | succ fuel ih =>
    intro depth cl frontier forest h
    rw [level_loop]
    split
    · omega
    · dsimp only
      have hstep : forest_depth (attach_forest oracle line_infos (cl + 1) depth forest) ≤
          (depth + 1) + 1 := by
        rw [attach_forest_eq_map]
        have := (attach_depth oracle line_infos (cl + 1) depth).2 forest
        omega
      have := ih (depth + 1) (cl + 1)
        (next_frontier oracle line_infos (cl + 1) sched frontier)
        (attach_forest oracle line_infos (cl + 1) depth forest) hstep
      omega

theorem forest_depth_map_congr (f : HierarchyNode → HierarchyNode) (l : List HierarchyNode)
    (h : ∀ x ∈ l, node_depth (f x) = node_depth x) :
    forest_depth (l.map f) = forest_depth l := by
  induction l with
  | nil => rw [List.map_nil]
  | cons n rest ih =>
    rw [List.map_cons, forest_depth_cons, forest_depth_cons]
    rw [h n (by simp), ih (fun x hx => h x (by simp [hx]))]

/-- `_fill_leaf_content` does not change the shape of the tree. -/
theorem fill_node_depth (line_infos : List LineInfo) :
    ∀ n, node_depth (fill_leaf_node line_infos n) = node_depth n := by
  refine hnode_ind ?_
  intro m ihc
  cases m with
  | mk l t nb ti ct s e p cs =>
    rw [fill_leaf_node]
    split
    · rfl
    · rw [node_depth_eq, node_depth_eq]
      show 1 + forest_depth (fill_leaf_forest line_infos cs) = 1 + forest_depth cs
      rw [fill_leaf_forest_eq_map, forest_depth_map_congr _ cs (fun x hx => ihc x hx)]

/-- **C2 (amended)**: depth is bounded deterministically, independent of
oracle behaviour.  (1) `extract_hierarchy_dynamic` returns `[]` as soon
as `level ≥ max_depth`; (2) its output height is at most
`max_depth - level` levels; (3) `extract_level_by_level` produces at
most `max(max_depth, 1)` levels — at most `max_depth` levels whenever
`max_depth ≥ 1`, but exactly one level when `max_depth ≤ 0`, because the
level-1 discovery happens before the `current_level < max_depth` check
(see `c2_counterexample`).  Totality of the Lean functions is the
termination statement. -/
theorem c2_theorem :
    (∀ (oracle : Oracle) (line_infos : List LineInfo) (s e level max_depth : Int),
      level ≥ max_depth →
      extract_hierarchy_dynamic oracle line_infos s e level max_depth = []) ∧
    (∀ (oracle : Oracle) (line_infos : List LineInfo) (s e level max_depth : Int),
      forest_depth (extract_hierarchy_dynamic oracle line_infos s e level max_depth) ≤
        (max_depth - level).toNat) ∧
    (∀ (oracle : Oracle) (line_infos : List LineInfo) (max_depth : Int) (sched : Sched),
      forest_depth (extract_level_by_level oracle line_infos max_depth sched) ≤
        max max_depth.toNat 1) := by
  refine ⟨?_, ?_, ?_⟩
  · intro oracle line_infos s e level max_depth h
    unfold extract_hierarchy_dynamic
    rw [show (max_depth - level).toNat = 0 by omega]
    rw [extract_hierarchy_dynamic_aux]
  · intro oracle line_infos s e level max_depth
    exact dyn_depth oracle line_infos _ s e level
  · intro oracle line_infos max_depth sched
    cases line_infos with
    | nil =>
      show forest_depth [] ≤ _
      rw [forest_depth_nil]
      omega
    | cons l0 rest =>
      rw [extract_level_by_level]
      dsimp only
      split
      · rw [forest_depth_nil]; omega
      · rw [fill_leaf_forest_eq_map,
          forest_depth_map_congr _ _ (fun x _ => fill_node_depth (l0 :: rest) x)]
        have hroots : forest_depth
            ((oracle l0.line_num ((l0 :: rest).getLast (List.cons_ne_nil l0 rest)).line_num).map
              (mkChildNode (l0 :: rest) 1)) ≤ 0 + 1 :=
          forest_depth_map_mkChild _ _ _
        have := level_loop_depth oracle (l0 :: rest) sched (max_depth - 1).toNat 0 1
          ((oracle l0.line_num ((l0 :: rest).getLast (List.cons_ne_nil l0 rest)).line_num).map
            (mkChildNode (l0 :: rest) 1))
          _ hroots
        omega

theorem c2_witness :
    (3 : Int) ≥ (2 : Int) ∧
    extract_hierarchy_dynamic echo_oracle doc3 1 3 3 2 = [] :=
  ⟨by decide, c2_theorem.1 echo_oracle doc3 1 3 3 2 (by decide)⟩

/-- **C2 counterexample**: with `max_depth = 0` the claim demands at
most 0 levels, but `extract_level_by_level` performs its level-1
discovery before the `current_level < max_depth` loop check, so it
still produces one level of nodes. -/
theorem c2_counterexample :
    forest_depth (extract_level_by_level c4w_oracle doc3 0 sched_id) = 1 ∧
    ¬ forest_depth (extract_level_by_level c4w_oracle doc3 0 sched_id) ≤ (0 : Int).toNat :=
  ⟨rfl, by decide⟩

/-! ### C6 — idempotence of the Tree Repair Pass -/

/-- Per-node idempotence of `fill_missing_titles`: a node repaired once
is not changed by a second pass — a title set by the first run blocks
the re-query, and a node still without a title gets the same
(deterministic) oracle answer again. -/
theorem fill_titles_node_idem (oracle : TitleOracle) (line_infos : List LineInfo) :
    ∀ n, fill_titles_node oracle line_infos (fill_titles_node oracle line_infos n) =
      fill_titles_node oracle line_infos n := by
  refine hnode_ind ?_
  intro m ihc
  cases m with
  | mk l t nb ti c s e p cs =>
    have hcs : fill_titles_forest oracle line_infos (fill_titles_forest oracle line_infos cs) =
        fill_titles_forest oracle line_infos cs := by
      rw [fill_titles_forest_eq_map, fill_titles_forest_eq_map, List.map_map]
      exact List.map_congr_left (fun x hx => ihc x hx)
    cases ti with
    | some v => simp [fill_titles_node, hcs]
    | none =>
      cases hf : (find_missing_title oracle line_infos t nb s e).1 with
      | none => simp [fill_titles_node, hf, hcs]
      | some f =>
        by_cases hfe : f = ""
        · subst hfe; simp [fill_titles_node, hf, hcs]
        · simp [fill_titles_node, hf, hfe, hcs]

/-- **C6**: the Tree Repair Pass is idempotent — with a deterministic
title oracle, running `fill_missing_titles` a second time on the result
of the first run changes no node. -/
theorem c6_theorem (oracle : TitleOracle) (line_infos : List LineInfo)
    (nodes : List HierarchyNode) :
    fill_titles_forest oracle line_infos (fill_titles_forest oracle line_infos nodes) =
      fill_titles_forest oracle line_infos nodes := by
  rw [fill_titles_forest_eq_map, fill_titles_forest_eq_map, List.map_map]
  exact List.map_congr_left (fun x _ => fill_titles_node_idem oracle line_infos x)

/-! ### C7 — frame property of the Tree Repair Pass -/

mutual

/-- `node_frame before after`: `after` has the same `level`, `type`,
`number`, `content`, `start_line`, `end_line` and `page` as `before`,
the same tree shape, and keeps `before`'s title whenever it was
non-null. -/
def node_frame : HierarchyNode → HierarchyNode → Prop
  | .mk l t nb ti c s e p cs, .mk l' t' nb' ti' c' s' e' p' cs' =>
    l' = l ∧ t' = t ∧ nb' = nb ∧ c' = c ∧ s' = s ∧ e' = e ∧ p' = p ∧
    (ti ≠ none → ti' = ti) ∧ forest_frame cs cs'

/-- `node_frame`, node by node over two forests of equal length. -/
def forest_frame : List HierarchyNode → List HierarchyNode → Prop
  | [], [] => True
  | [], _ :: _ => False
  | _ :: _, [] => False
  | a :: as, b :: bs => node_frame a b ∧ forest_frame as bs

end

theorem forest_frame_map (f : HierarchyNode → HierarchyNode) (l : List HierarchyNode)
    (h : ∀ x ∈ l, node_frame x (f x)) : forest_frame l (l.map f) := by
  induction l with
  | nil => rw [List.map_nil, forest_frame]; trivial
  | cons n rest ih =>
    rw [List.map_cons, forest_frame]
    exact ⟨h n (by simp), ih (fun x hx => h x (by simp [hx]))⟩

/-- Per-node frame property of `fill_missing_titles`. -/
theorem fill_titles_node_frame (oracle : TitleOracle) (line_infos : List LineInfo) :
    ∀ n, node_frame n (fill_titles_node oracle line_infos n) := by
  refine hnode_ind ?_
  intro m ihc
  cases m with
  | mk l t nb ti c s e p cs =>
    rw [fill_titles_node]
    rw [node_frame]
    refine ⟨rfl, rfl, rfl, rfl, rfl, rfl, rfl, ?_, ?_⟩
    · intro hti
      rw [if_neg hti]
    · rw [fill_titles_forest_eq_map]
      exact forest_frame_map _ cs (fun x hx => ihc x hx)

/-- **C7**: the Tree Repair Pass modifies only the `title` field of
nodes whose title was null: every other field and the tree shape are
identical before and after, and a non-null title is never
overwritten. -/
theorem c7_theorem (oracle : TitleOracle) (line_infos : List LineInfo)
    (nodes : List HierarchyNode) :
    forest_frame nodes (fill_titles_forest oracle line_infos nodes) := by
  rw [fill_titles_forest_eq_map]
  exact forest_frame_map _ nodes (fun x _ => fill_titles_node_frame oracle line_infos x)

example : get_page_for_line [⟨1, 5, "A"⟩] 99 = 1 := by decide
example : get_lines_slice [⟨1, 1, "A"⟩, ⟨2, 1, "B"⟩, ⟨3, 1, "C"⟩] 2 3 = "2| B\n3| C" := by decide
example : format_numbered_text [⟨1, 1, "First"⟩, ⟨10, 1, "Tenth"⟩, ⟨100, 2, "Hundredth"⟩]
    = "  1| First\n 10| Tenth\n100| Hundredth" := by decide

end AkomaNtoso
